import Mathlib

/-!
# Mesh agent (akulearn_microservices/mesh_agent/main.go)

A verification development for the four HTTP handlers of the mesh agent and
the two package-level variables they share, `cache` and `cacheMutex`.

The handlers are straight-line code, so each body is embedded as the list of
its statements in source order.  One statement semantics (`Stmt.exec`) gives
both the sequential meaning of a handler call (`execAll`) and the interleaved
meaning of several handler calls running as goroutines (`Sys.step`).
-/

namespace MeshAgent

/-! ## Data model -/

/-- A Go `map[string]string`, kept as a list of key/value entries.  The
operations below never create a second entry for a key; `StringMap.WF` states
that property and `StringMap.set_WF` shows that it is preserved. -/
structure StringMap where
  entries : List (String × String)
deriving DecidableEq

namespace StringMap

/-- The value of `make(map[string]string)`: a map without entries. -/
def make : StringMap := ⟨[]⟩

/-- Lookup in a list of entries. -/
def getEntries : List (String × String) → String → Option String
  | [], _ => none
  | (k', v') :: rest, k => if k' = k then some v' else getEntries rest k

/-- The Go expression `v, ok := m[k]`: `some v` when `ok`, `none` otherwise. -/
def get (m : StringMap) (k : String) : Option String :=
  getEntries m.entries k

/-- Assignment in a list of entries: the value of an existing entry is
replaced in place, a new key gets a new entry. -/
def setEntries : List (String × String) → String → String → List (String × String)
  | [], k, v => [(k, v)]
  | (k', v') :: rest, k, v =>
      if k' = k then (k, v) :: rest else (k', v') :: setEntries rest k v

/-- The Go statement `m[k] = v`. -/
def set (m : StringMap) (k v : String) : StringMap :=
  ⟨setEntries m.entries k v⟩

/-- The Go expression `len(m)`: the number of entries. -/
def len (m : StringMap) : Nat :=
  m.entries.length

/-- The keys of the entries, in list order. -/
def keys (m : StringMap) : List String :=
  m.entries.map Prod.fst

/-- Well-formedness: no key has two entries. -/
def WF (m : StringMap) : Prop :=
  m.keys.Nodup

instance (m : StringMap) : Decidable m.WF :=
  inferInstanceAs (Decidable (m.keys.Nodup))

end StringMap

/-- The state of a `sync.RWMutex`: whether the exclusive (write) side is
held, and how many holders the shared (read) side has. -/
structure RWMutex where
  writer : Bool
  readers : Nat
deriving DecidableEq

namespace RWMutex

/-- The zero value `sync.RWMutex{}`: an unlocked mutex. -/
def zero : RWMutex := ⟨false, 0⟩

/-- The method `Lock`: takes the exclusive side when nobody holds either side.
`none` means that the caller cannot proceed (it waits for the holders). -/
def Lock (m : RWMutex) : Option RWMutex :=
  if m.writer = false ∧ m.readers = 0 then some ⟨true, m.readers⟩ else none

/-- The method `Unlock`: releases the exclusive side.  `none` means that the
caller does not proceed: unlocking a mutex whose exclusive side is not held is
a fatal run-time error. -/
def Unlock (m : RWMutex) : Option RWMutex :=
  if m.writer = true then some ⟨false, m.readers⟩ else none

end RWMutex

/-- The package-level variables of main.go. -/
structure Globals where
  cache : StringMap
  cacheMutex : RWMutex
deriving DecidableEq

/-- The package-level variables after initialisation:
`cache = make(map[string]string)` and `cacheMutex = sync.RWMutex{}`. -/
def Globals.init : Globals :=
  ⟨StringMap.make, RWMutex.zero⟩

/-- The part of an `*http.Request` a handler could look at.  No handler of
main.go reads its request. -/
structure Request where
  method : String
  path : String
  body : String
deriving DecidableEq

/-- An `http.ResponseWriter` that records what is written to it: the status
code once the header has been written, and the body bytes so far. -/
structure ResponseWriter where
  status : Option Nat
  body : String
deriving DecidableEq

namespace ResponseWriter

/-- A writer nothing has been written to. -/
def fresh : ResponseWriter := ⟨none, ""⟩

/-- The method `Write`: appends to the body; the first write sends the header
with status 200 when no header has been written. -/
def Write (w : ResponseWriter) (s : String) : ResponseWriter :=
  ⟨some (w.status.getD 200), w.body ++ s⟩

end ResponseWriter

/-! ## The JSON encoder used by the metrics handler -/

/-- The lower-case hexadecimal digit of a number below 16. -/
def hexDigit (n : Nat) : String :=
  String.singleton ("0123456789abcdef".toList.getD n (Char.ofNat 48))

/-- How encoding/json writes one character of a string, with HTML escaping on
(the default of an Encoder): the quote and the backslash get a backslash,
backspace, form feed, newline, carriage return and tab their short escape,
other control characters and the characters `<`, `>`, `&` a `\u00XX` escape,
U+2028 and U+2029 their `\u` escape, and every other character stands for
itself. -/
def escapeChar (c : Char) : String :=
  if c.toNat = 34 then "\\\""
  else if c.toNat = 92 then "\\\\"
  else if c.toNat = 8 then "\\b"
  else if c.toNat = 12 then "\\f"
  else if c.toNat = 10 then "\\n"
  else if c.toNat = 13 then "\\r"
  else if c.toNat = 9 then "\\t"
  else if c.toNat < 32 ∨ c.toNat = 60 ∨ c.toNat = 62 ∨ c.toNat = 38 then
    "\\u00" ++ hexDigit (c.toNat / 16) ++ hexDigit (c.toNat % 16)
  else if c.toNat = 8232 then "\\u2028"
  else if c.toNat = 8233 then "\\u2029"
  else String.singleton c

/-- A JSON string literal: the escaped characters between double quotes. -/
def quote (s : String) : String :=
  "\"" ++ String.join (s.toList.map escapeChar) ++ "\""

/-- Lexicographic order on character sequences; on strings it is the byte
order encoding/json sorts map keys by. -/
def ltChars : List Char → List Char → Bool
  | _, [] => false
  | [], _ :: _ => true
  | a :: as, b :: bs =>
      if a.toNat < b.toNat then true
      else if b.toNat < a.toNat then false
      else ltChars as bs

/-- Insertion of an entry into a list of entries sorted by key. -/
def insertByKey (e : String × String) : List (String × String) → List (String × String)
  | [] => [e]
  | x :: xs =>
      if ltChars e.1.toList x.1.toList then e :: x :: xs else x :: insertByKey e xs

/-- The entries sorted by key. -/
def sortByKey (l : List (String × String)) : List (String × String) :=
  l.foldr insertByKey []

/-- The JSON text of a `map[string]string` as `json.Marshal` writes it: an
object whose members come in key order. -/
def Marshal (m : StringMap) : String :=
  "\x7b" ++ ",".intercalate ((sortByKey m.entries).map fun e => quote e.1 ++ ":" ++ quote e.2)
    ++ "\x7d"

/-- The call `json.NewEncoder(w).Encode(m)`: one write of the JSON text
followed by a newline. -/
def Encode (w : ResponseWriter) (m : StringMap) : ResponseWriter :=
  w.Write (Marshal m ++ "\n")

/-! ## Statements and handlers -/

/-- The statements the handler bodies are made of. -/
inductive Stmt where
  /-- The statement `cacheMutex.Lock()`. -/
  | lock : Stmt
  /-- The statement `cacheMutex.Unlock()`. -/
  | unlock : Stmt
  /-- The statement `cache[k] = v`. -/
  | store (k v : String) : Stmt
  /-- The statement `w.Write([]byte(s))`. -/
  | write (s : String) : Stmt
  /-- The statements `resp := m` and `json.NewEncoder(w).Encode(resp)`. -/
  | encode (m : StringMap) : Stmt
deriving DecidableEq

/-- One statement run by a goroutine whose response writer is `w`.  `none`
means that the goroutine does not get past the statement. -/
def Stmt.exec : Stmt → Globals → ResponseWriter → Option (Globals × ResponseWriter)
  | .lock, g, w => g.cacheMutex.Lock.map fun m => (⟨g.cache, m⟩, w)
  | .unlock, g, w => g.cacheMutex.Unlock.map fun m => (⟨g.cache, m⟩, w)
  | .store k v, g, w => some (⟨g.cache.set k v, g.cacheMutex⟩, w)
  | .write s, g, w => some (g, w.Write s)
  | .encode m, g, w => some (g, Encode w m)

/-- A statement list run to its end by one goroutine, nothing else running. -/
def execAll : List Stmt → Globals → ResponseWriter → Option (Globals × ResponseWriter)
  | [], g, w => some (g, w)
  | s :: rest, g, w =>
      match s.exec g w with
      | none => none
      | some (g', w') => execAll rest g' w'

/-- The body of `cacheHandler`. -/
def cacheHandlerBody : List Stmt :=
  [.lock, .store "session" "data", .unlock, .write "Cached session data"]

/-- The body of `routeHandler`. -/
def routeHandlerBody : List Stmt :=
  [.write "Routing packet..."]

/-- The body of `failoverHandler`. -/
def failoverHandlerBody : List Stmt :=
  [.write "Rerouting to next edge node"]

/-- The body of `metricsHandler`. -/
def metricsHandlerBody : List Stmt :=
  [.encode ⟨[("dc_np_ratio", "0.1/0.9")]⟩]

/-- Caching endpoint: a call of `cacheHandler(w, r)` from the globals `g`. -/
def cacheHandler (w : ResponseWriter) (_r : Request) (g : Globals) :
    Option (Globals × ResponseWriter) :=
  execAll cacheHandlerBody g w

/-- Routing endpoint: a call of `routeHandler(w, r)` from the globals `g`. -/
def routeHandler (w : ResponseWriter) (_r : Request) (g : Globals) :
    Option (Globals × ResponseWriter) :=
  execAll routeHandlerBody g w

/-- Fast reroute failover endpoint: a call of `failoverHandler(w, r)`. -/
def failoverHandler (w : ResponseWriter) (_r : Request) (g : Globals) :
    Option (Globals × ResponseWriter) :=
  execAll failoverHandlerBody g w

/-- Metrics endpoint: a call of `metricsHandler(w, r)` from the globals `g`. -/
def metricsHandler (w : ResponseWriter) (_r : Request) (g : Globals) :
    Option (Globals × ResponseWriter) :=
  execAll metricsHandlerBody g w

/-- The four handlers `main` registers. -/
inductive Handler where
  | cache : Handler
  | route : Handler
  | failover : Handler
  | metrics : Handler
deriving DecidableEq

/-- The statements of a handler. -/
def Handler.body : Handler → List Stmt
  | .cache => cacheHandlerBody
  | .route => routeHandlerBody
  | .failover => failoverHandlerBody
  | .metrics => metricsHandlerBody

/-- A call of a handler. -/
def Handler.call : Handler → ResponseWriter → Request → Globals →
    Option (Globals × ResponseWriter)
  | .cache => cacheHandler
  | .route => routeHandler
  | .failover => failoverHandler
  | .metrics => metricsHandler

/-- Requests served one after the other, each with a writer of its own.  The
result is the globals after the last call and the responses in call order;
`none` when a call does not return. -/
def serve : List (Handler × Request) → Globals → Option (Globals × List ResponseWriter)
  | [], g => some (g, [])
  | (h, r) :: rest, g =>
      match h.call ResponseWriter.fresh r g with
      | none => none
      | some (g', w) =>
          match serve rest g' with
          | none => none
          | some (g'', ws) => some (g'', w :: ws)

/-! ## Handlers running as goroutines -/

/-- A handler call in progress: the statements it has still to run and its
response writer. -/
structure Goroutine where
  pc : List Stmt
  w : ResponseWriter
deriving DecidableEq

/-- The server with several handler calls in progress.  `holder` is a ghost
field: the index of the goroutine whose `Lock` was the last to succeed without
an `Unlock` after it.  No statement reads it. -/
structure Sys where
  g : Globals
  procs : List Goroutine
  holder : Option Nat
deriving DecidableEq

/-- The holder after goroutine `i` has run statement `s`. -/
def Stmt.holderAfter (s : Stmt) (i : Nat) (holder : Option Nat) : Option Nat :=
  match s with
  | .lock => some i
  | .unlock => none
  | _ => holder

/-- The server at the moment the given handler calls have all been started
and none has run a statement. -/
def Sys.start (g : Globals) (calls : List (Handler × Request)) : Sys :=
  ⟨g, calls.map fun c => ⟨c.1.body, ResponseWriter.fresh⟩, none⟩

/-- Goroutine `i` is scheduled: it runs its next statement.  The system stays
as it is when there is no such goroutine, when it has returned, or when it
cannot get past its next statement. -/
def Sys.step (c : Sys) (i : Nat) : Sys :=
  match c.procs[i]? with
  | some ⟨s :: rest, w⟩ =>
      match s.exec c.g w with
      | some (g', w') => ⟨g', c.procs.set i ⟨rest, w'⟩, s.holderAfter i c.holder⟩
      | none => c
  | _ => c

/-- The system after a schedule: the goroutines named run one statement each,
in the order of the list. -/
def Sys.run (c : Sys) : List Nat → Sys
  | [] => c
  | i :: rest => (c.step i).run rest

/-- The globals a sequence of calls can lead to from the initial ones. -/
def Settled (g : Globals) : Prop :=
  g.cacheMutex = RWMutex.zero ∧
    (g.cache = StringMap.make ∨ g.cache = ⟨[("session", "data")]⟩)

/-- Whether a goroutine with these statements left is between its `Lock` and
its `Unlock`: of the lock statements ahead of it, the first is an `Unlock`. -/
def inCritical : List Stmt → Bool
  | [] => false
  | .unlock :: _ => true
  | .lock :: _ => false
  | _ :: rest => inCritical rest

/-- The invariant of the server that runs the handler calls `calls`: the
shared side of the mutex is unused, the exclusive side is held exactly when
there is a holder, every goroutine is somewhere in the body of the handler it
was started with, and the holder is the one goroutine between its `Lock` and
its `Unlock`. -/
def Sys.Inv (calls : List (Handler × Request)) (c : Sys) : Prop :=
  c.g.cacheMutex.readers = 0 ∧
  c.g.cacheMutex.writer = c.holder.isSome ∧
  ∀ i p, c.procs[i]? = some p →
    (∃ cr, calls[i]? = some cr ∧ p.pc <:+ cr.1.body) ∧
    (inCritical p.pc = true ↔ c.holder = some i)

/-! ## Lemmas on maps -/

namespace StringMap

theorem getEntries_setEntries_self (l : List (String × String)) (k v : String) :
    getEntries (setEntries l k v) k = some v := by
  induction l with
  | nil => simp [setEntries, getEntries]
  | cons e rest ih =>
      obtain ⟨k', v'⟩ := e
      by_cases hk : k' = k
      · simp [setEntries, getEntries, hk]
      · simp [setEntries, getEntries, hk, ih]

theorem getEntries_setEntries_ne (l : List (String × String)) (k v j : String) (hj : j ≠ k) :
    getEntries (setEntries l k v) j = getEntries l j := by
  induction l with
  | nil => simp [setEntries, getEntries, Ne.symm hj]
  | cons e rest ih =>
      obtain ⟨k', v'⟩ := e
      by_cases hk : k' = k
      · subst hk
        simp [setEntries, getEntries, Ne.symm hj]
      · by_cases hkj : k' = j
        · subst hkj
          simp [setEntries, getEntries, hk]
        · simp [setEntries, getEntries, hk, hkj, ih]

theorem setEntries_setEntries (l : List (String × String)) (k v v' : String) :
    setEntries (setEntries l k v) k v' = setEntries l k v' := by
  induction l with
  | nil => simp [setEntries]
  | cons e rest ih =>
      obtain ⟨k', u⟩ := e
      by_cases hk : k' = k
      · simp [setEntries, hk]
      · simp [setEntries, hk, ih]

theorem length_setEntries_of_none (l : List (String × String)) (k v : String)
    (hk : getEntries l k = none) : (setEntries l k v).length = l.length + 1 := by
  induction l with
  | nil => simp [setEntries]
  | cons e rest ih =>
      obtain ⟨k', u⟩ := e
      by_cases hk' : k' = k
      · simp [getEntries, hk'] at hk
      · simp only [getEntries, hk', if_false] at hk
        simp [setEntries, hk', ih hk]

theorem length_setEntries_of_some (l : List (String × String)) (k v : String)
    (hk : getEntries l k ≠ none) : (setEntries l k v).length = l.length := by
  induction l with
  | nil => simp [getEntries] at hk
  | cons e rest ih =>
      obtain ⟨k', u⟩ := e
      by_cases hk' : k' = k
      · simp [setEntries, hk']
      · simp only [getEntries, hk', if_false] at hk
        simp [setEntries, hk', ih hk]

theorem getEntries_ne_none_iff (l : List (String × String)) (k : String) :
    getEntries l k ≠ none ↔ k ∈ l.map Prod.fst := by
  induction l with
  | nil => simp [getEntries]
  | cons e rest ih =>
      obtain ⟨k', u⟩ := e
      by_cases hk' : k' = k
      · simp [getEntries, hk']
      · simp only [getEntries, hk', if_false, ih]
        simp [Ne.symm hk']

theorem mem_keys_setEntries (l : List (String × String)) (k v j : String) :
    j ∈ (setEntries l k v).map Prod.fst ↔ j = k ∨ j ∈ l.map Prod.fst := by
  induction l with
  | nil => simp [setEntries]
  | cons e rest ih =>
      obtain ⟨k', u⟩ := e
      by_cases hk' : k' = k
      · subst hk'
        simp [setEntries]
      · simp only [setEntries, hk', if_false, List.map_cons, List.mem_cons, ih]
        tauto

/-- A lookup right after an assignment finds the assigned value. -/
theorem get_set_self (m : StringMap) (k v : String) : (m.set k v).get k = some v :=
  getEntries_setEntries_self m.entries k v

/-- An assignment leaves the other keys as they are. -/
theorem get_set_ne (m : StringMap) (k v j : String) (hj : j ≠ k) :
    (m.set k v).get j = m.get j :=
  getEntries_setEntries_ne m.entries k v j hj

/-- A second assignment to a key replaces the first. -/
theorem set_set (m : StringMap) (k v v' : String) : (m.set k v).set k v' = m.set k v' := by
  simp [set, setEntries_setEntries]

/-- An assignment to a new key adds one entry. -/
theorem len_set_of_none (m : StringMap) (k v : String) (hk : m.get k = none) :
    (m.set k v).len = m.len + 1 :=
  length_setEntries_of_none m.entries k v hk

/-- An assignment to a key of the map keeps the number of entries. -/
theorem len_set_of_some (m : StringMap) (k v : String) (hk : m.get k ≠ none) :
    (m.set k v).len = m.len :=
  length_setEntries_of_some m.entries k v hk

/-- An assignment keeps the map well formed. -/
theorem set_WF (m : StringMap) (k v : String) (hm : m.WF) : (m.set k v).WF := by
  obtain ⟨l⟩ := m
  simp only [WF, keys, set] at hm ⊢
  induction l with
  | nil => simp [setEntries]
  | cons e rest ih =>
      obtain ⟨k', u⟩ := e
      simp only [List.map_cons, List.nodup_cons] at hm
      by_cases hk' : k' = k
      · subst hk'
        simpa [setEntries] using hm
      · simp only [setEntries, hk', if_false, List.map_cons, List.nodup_cons]
        refine ⟨?_, ih hm.2⟩
        rw [mem_keys_setEntries]
        rintro (h | h)
        · exact hk' h
        · exact hm.1 h

end StringMap

/-! ## Lemmas on the handlers -/

/-- What a call of `cacheHandler` does: with the mutex unlocked it assigns the
one entry, leaves the mutex unlocked and writes its text; it does not return
otherwise. -/
theorem cacheHandler_eq (w : ResponseWriter) (r : Request) (g : Globals) :
    cacheHandler w r g =
      if g.cacheMutex.writer = false ∧ g.cacheMutex.readers = 0 then
        some (⟨g.cache.set "session" "data", ⟨false, g.cacheMutex.readers⟩⟩,
          w.Write "Cached session data")
      else none := by
  unfold cacheHandler cacheHandlerBody
  by_cases h : g.cacheMutex.writer = false ∧ g.cacheMutex.readers = 0
  · simp [execAll, Stmt.exec, RWMutex.Lock, RWMutex.Unlock, h]
  · simp only [execAll, Stmt.exec, RWMutex.Lock, h, if_false, Option.map_none']

theorem cacheHandler_unlocked (w : ResponseWriter) (r : Request) (g : Globals)
    (hm : g.cacheMutex = RWMutex.zero) :
    cacheHandler w r g =
      some (⟨g.cache.set "session" "data", RWMutex.zero⟩, w.Write "Cached session data") := by
  rw [cacheHandler_eq, hm]
  simp [RWMutex.zero]

theorem routeHandler_eq (w : ResponseWriter) (r : Request) (g : Globals) :
    routeHandler w r g = some (g, w.Write "Routing packet...") := rfl

theorem failoverHandler_eq (w : ResponseWriter) (r : Request) (g : Globals) :
    failoverHandler w r g = some (g, w.Write "Rerouting to next edge node") := rfl

theorem metricsHandler_eq (w : ResponseWriter) (r : Request) (g : Globals) :
    metricsHandler w r g = some (g, w.Write "\x7b\"dc_np_ratio\":\"0.1/0.9\"\x7d\n") := by
  have h : Marshal ⟨[("dc_np_ratio", "0.1/0.9")]⟩ ++ "\n"
      = "\x7b\"dc_np_ratio\":\"0.1/0.9\"\x7d\n" := by decide
  simp only [metricsHandler, metricsHandlerBody, execAll, Stmt.exec, Encode, h]

theorem body_Write (w : ResponseWriter) (s : String) : (w.Write s).body = w.body ++ s := rfl

theorem body_fresh_Write (s : String) : (ResponseWriter.fresh.Write s).body = s := by
  simp [ResponseWriter.Write, ResponseWriter.fresh]

theorem call_eq_of_ne_cache (h : Handler) (hh : h ≠ Handler.cache) (w : ResponseWriter)
    (r : Request) (g : Globals) : ∃ w', h.call w r g = some (g, w') := by
  cases h with
  | cache => exact absurd rfl hh
  | route => exact ⟨_, routeHandler_eq w r g⟩
  | failover => exact ⟨_, failoverHandler_eq w r g⟩
  | metrics => exact ⟨_, metricsHandler_eq w r g⟩

theorem call_settled (h : Handler) (w : ResponseWriter) (r : Request) (g : Globals)
    (hg : Settled g) : ∃ g' w', h.call w r g = some (g', w') ∧ Settled g' := by
  by_cases hh : h = Handler.cache
  · subst hh
    refine ⟨_, _, cacheHandler_unlocked w r g hg.1, rfl, Or.inr ?_⟩
    rcases hg.2 with hc | hc <;> rw [hc] <;> decide
  · obtain ⟨w', hw'⟩ := call_eq_of_ne_cache h hh w r g
    exact ⟨g, w', hw', hg⟩

theorem serve_settled (calls : List (Handler × Request)) (g : Globals) (hg : Settled g) :
    ∃ g' ws, serve calls g = some (g', ws) ∧ Settled g' := by
  induction calls generalizing g with
  | nil => exact ⟨g, [], rfl, hg⟩
  | cons c rest ih =>
      obtain ⟨h, r⟩ := c
      obtain ⟨g₁, w₁, h₁, hs₁⟩ := call_settled h ResponseWriter.fresh r g hg
      obtain ⟨g₂, ws, h₂, hs₂⟩ := ih g₁ hs₁
      exact ⟨g₂, w₁ :: ws, by simp [serve, h₁, h₂], hs₂⟩

theorem serve_append (xs ys : List (Handler × Request)) (g g' : Globals)
    (ws : List ResponseWriter) (hx : serve xs g = some (g', ws)) :
    serve (xs ++ ys) g = (serve ys g').map fun p => (p.1, ws ++ p.2) := by
  induction xs generalizing g ws with
  | nil =>
      simp only [serve, Option.some.injEq, Prod.mk.injEq] at hx
      obtain ⟨rfl, rfl⟩ := hx
      rw [List.nil_append]
      cases hy : serve ys g <;> simp
  | cons c rest ih =>
      obtain ⟨h, r⟩ := c
      rw [List.cons_append]
      simp only [serve] at hx ⊢
      cases h₁ : h.call ResponseWriter.fresh r g with
      | none => simp [h₁] at hx
      | some p₁ =>
          obtain ⟨g₁, w₁⟩ := p₁
          simp only [h₁] at hx ⊢
          cases h₂ : serve rest g₁ with
          | none => simp [h₂] at hx
          | some p₂ =>
              obtain ⟨g₂, ws₂⟩ := p₂
              simp only [h₂, Option.some.injEq, Prod.mk.injEq] at hx
              obtain ⟨rfl, rfl⟩ := hx
              rw [ih g₁ ws₂ h₂]
              cases hy : serve ys g₂ <;> simp

theorem serve_failovers (fs : List Request) (g : Globals) :
    serve (fs.map fun q => (Handler.failover, q)) g
      = some (g, fs.map fun _ => ResponseWriter.fresh.Write "Rerouting to next edge node") := by
  induction fs with
  | nil => rfl
  | cons q rest ih =>
      simp only [List.map_cons, serve, Handler.call, failoverHandler_eq, ih]

/-- A cache reached from the initial globals lacks an entry for "session"
only when it has no entry at all: the one key a call of `cacheHandler` can
add is added to the empty cache and to no other cache the program reaches. -/
theorem serve_no_session_empty (calls : List (Handler × Request)) (g : Globals)
    (ws : List ResponseWriter) (hs : serve calls Globals.init = some (g, ws))
    (hnew : g.cache.get "session" = none) : g.cache.len = 0 := by
  obtain ⟨g', ws', hs', hg'⟩ := serve_settled calls Globals.init ⟨rfl, Or.inl rfl⟩
  rw [hs] at hs'
  simp only [Option.some.injEq, Prod.mk.injEq] at hs'
  obtain ⟨rfl, -⟩ := hs'
  rcases hg'.2 with hc | hc
  · rw [hc]; rfl
  · rw [hc] at hnew
    exact absurd hnew (by decide)

/-! ## The claims -/

/-- C1. Read-after-write for the cache-write request: from every cache and
with the mutex unlocked, `cacheHandler` returns, a lookup of "session" in the
cache it leaves finds "data", the handler has appended exactly "Cached session
data" to the body, and with a writer nothing was written to the body is
exactly that text. -/
theorem cacheHandler_read_after_write (w : ResponseWriter) (r : Request) (g : Globals)
    (hm : g.cacheMutex = RWMutex.zero) :
    ∃ g' w', cacheHandler w r g = some (g', w') ∧
      g'.cache.get "session" = some "data" ∧
      w'.body = w.body ++ "Cached session data" ∧
      (cacheHandler ResponseWriter.fresh r g).map (fun p => p.2.body)
        = some "Cached session data" := by
  refine ⟨_, _, cacheHandler_unlocked w r g hm, StringMap.get_set_self _ _ _, rfl, ?_⟩
  rw [cacheHandler_unlocked _ r g hm]
  simp [body_fresh_Write]

/-- Witness of C1 at a cache that holds another key. -/
theorem cacheHandler_read_after_write_witness :
    (⟨⟨[("other", "x")]⟩, RWMutex.zero⟩ : Globals).cacheMutex = RWMutex.zero ∧
    ∃ g' w', cacheHandler ⟨none, ""⟩ ⟨"POST", "/cache", ""⟩ ⟨⟨[("other", "x")]⟩, RWMutex.zero⟩
        = some (g', w') ∧
      g'.cache.get "session" = some "data" ∧
      w'.body = (⟨none, ""⟩ : ResponseWriter).body ++ "Cached session data" ∧
      (cacheHandler ResponseWriter.fresh ⟨"POST", "/cache", ""⟩
          ⟨⟨[("other", "x")]⟩, RWMutex.zero⟩).map (fun p => p.2.body)
        = some "Cached session data" :=
  ⟨rfl, cacheHandler_read_after_write _ _ _ rfl⟩

/-- C2. Capacity bound as a reachable-state invariant: every finite sequence
of calls of the four handlers, in any order and with any requests, served
from the initial globals returns, and the cache it leaves is empty or exactly
the one entry "session" -> "data", so it holds at most 1 entry. -/
theorem cache_at_most_one_entry (calls : List (Handler × Request)) :
    ∃ g ws, serve calls Globals.init = some (g, ws) ∧
      (g.cache = StringMap.make ∨ g.cache = ⟨[("session", "data")]⟩) ∧
      g.cache.len ≤ 1 := by
  obtain ⟨g, ws, hs, hg⟩ := serve_settled calls Globals.init ⟨rfl, Or.inl rfl⟩
  refine ⟨g, ws, hs, hg.2, ?_⟩
  rcases hg.2 with hc | hc <;> rw [hc] <;> decide

/-- C3. Overwrite is visible and does not grow the cache: from every cache
and with the mutex unlocked, two calls of `cacheHandler` in a row both return,
the second leaves the globals exactly as the first left them, so the entry
count is that after the first call, and a lookup of "session" finds "data". -/
theorem cacheHandler_twice (w₁ w₂ : ResponseWriter) (r₁ r₂ : Request) (g : Globals)
    (hm : g.cacheMutex = RWMutex.zero) :
    ∃ g₁ w₁' g₂ w₂', cacheHandler w₁ r₁ g = some (g₁, w₁') ∧
      cacheHandler w₂ r₂ g₁ = some (g₂, w₂') ∧
      g₂ = g₁ ∧ g₂.cache.len = g₁.cache.len ∧
      g₂.cache.get "session" = some "data" := by
  refine ⟨_, _, _, _, cacheHandler_unlocked w₁ r₁ g hm, cacheHandler_unlocked w₂ r₂ _ rfl,
    ?_, ?_, StringMap.get_set_self _ _ _⟩
  · simp [StringMap.set_set]
  · simp [StringMap.set_set]

/-- Witness of C3 at a cache that holds another key. -/
theorem cacheHandler_twice_witness :
    (⟨⟨[("other", "x")]⟩, RWMutex.zero⟩ : Globals).cacheMutex = RWMutex.zero ∧
    ∃ g₁ w₁' g₂ w₂',
      cacheHandler ResponseWriter.fresh ⟨"POST", "/cache", "a"⟩
          ⟨⟨[("other", "x")]⟩, RWMutex.zero⟩ = some (g₁, w₁') ∧
      cacheHandler ResponseWriter.fresh ⟨"PUT", "/cache", "b"⟩ g₁ = some (g₂, w₂') ∧
      g₂ = g₁ ∧ g₂.cache.len = g₁.cache.len ∧
      g₂.cache.get "session" = some "data" :=
  ⟨rfl, cacheHandler_twice _ _ _ _ _ rfl⟩

/-- C4, as the code has it: the response to a metrics request does not report
the entry count of the cache.  For all globals, requests and writers the
handler returns, and two calls with the same writer leave the same response
whatever the two caches hold. -/
theorem metricsHandler_same_for_all_caches (w : ResponseWriter) (r₁ r₂ : Request)
    (g₁ g₂ : Globals) :
    ∃ w', metricsHandler w r₁ g₁ = some (g₁, w') ∧ metricsHandler w r₂ g₂ = some (g₂, w') :=
  ⟨_, metricsHandler_eq w r₁ g₁, metricsHandler_eq w r₂ g₂⟩

/-- C4 as stated fails: a cache without entries and a cache with two entries
get the same metrics response, and its body does not contain the digit 2. -/
theorem metricsHandler_len_counterexample :
    (StringMap.mk []).len = 0 ∧
    (StringMap.mk [("a", "x"), ("b", "y")]).len = 2 ∧
    (metricsHandler ResponseWriter.fresh ⟨"GET", "/metrics/edge", ""⟩
        ⟨⟨[]⟩, RWMutex.zero⟩).map (fun p => p.2)
      = (metricsHandler ResponseWriter.fresh ⟨"GET", "/metrics/edge", ""⟩
        ⟨⟨[("a", "x"), ("b", "y")]⟩, RWMutex.zero⟩).map (fun p => p.2) ∧
    (metricsHandler ResponseWriter.fresh ⟨"GET", "/metrics/edge", ""⟩
        ⟨⟨[("a", "x"), ("b", "y")]⟩, RWMutex.zero⟩).map (fun p => p.2.body.toList.contains (Char.ofNat 50))
      = some false := by
  decide

/-- C5. Metrics returns a fixed ratio: for every writer, request and globals
`metricsHandler` returns, leaves the globals as they are and appends the JSON
object with the one member "dc_np_ratio" of value "0.1/0.9" and a newline; on
a writer nothing was written to, the response is status 200 with exactly
these bytes. -/
theorem metricsHandler_fixed_ratio (w : ResponseWriter) (r : Request) (g : Globals) :
    metricsHandler w r g = some (g, w.Write "\x7b\"dc_np_ratio\":\"0.1/0.9\"\x7d\n") ∧
    (w.Write "\x7b\"dc_np_ratio\":\"0.1/0.9\"\x7d\n").body
      = w.body ++ "\x7b\"dc_np_ratio\":\"0.1/0.9\"\x7d\n" ∧
    metricsHandler ResponseWriter.fresh r g
      = some (g, ⟨some 200, "\x7b\"dc_np_ratio\":\"0.1/0.9\"\x7d\n"⟩) := by
  refine ⟨metricsHandler_eq w r g, rfl, ?_⟩
  rw [metricsHandler_eq]
  simp [ResponseWriter.Write, ResponseWriter.fresh]

/-- C6, as the code has it: a failover request does not advance any route.
`failoverHandler` returns with the globals as they were, so the route request
after it returns exactly what the same route request returns without it. -/
theorem failover_leaves_route_as_is (w w' : ResponseWriter) (q r : Request) (g : Globals) :
    (failoverHandler w q g).bind (fun p => routeHandler w' r p.1) = routeHandler w' r g ∧
    (routeHandler w' r g).isSome = true := by
  simp [failoverHandler_eq, routeHandler_eq]

/-- C6 as stated fails: from the initial globals, route requests before and
after one, two and three failover requests all get the response "Routing
packet...", where the claim has four different answers. -/
theorem failover_counterexample :
    serve [(Handler.route, ⟨"GET", "/route", ""⟩), (Handler.failover, ⟨"POST", "/failover", ""⟩),
        (Handler.route, ⟨"GET", "/route", ""⟩), (Handler.failover, ⟨"POST", "/failover", ""⟩),
        (Handler.route, ⟨"GET", "/route", ""⟩), (Handler.failover, ⟨"POST", "/failover", ""⟩),
        (Handler.route, ⟨"GET", "/route", ""⟩)] Globals.init
      = some (Globals.init,
          [⟨some 200, "Routing packet..."⟩, ⟨some 200, "Rerouting to next edge node"⟩,
           ⟨some 200, "Routing packet..."⟩, ⟨some 200, "Rerouting to next edge node"⟩,
           ⟨some 200, "Routing packet..."⟩, ⟨some 200, "Rerouting to next edge node"⟩,
           ⟨some 200, "Routing packet..."⟩]) := by
  decide

/-- C8. Routing and failover handlers are stateless constants: for every
writer, request and globals, `routeHandler` appends exactly "Routing
packet..." and `failoverHandler` exactly "Rerouting to next edge node", both
return and leave the globals as they are; and a route request served after
any number of failover requests gets the response it gets with none before
it, status 200 and body "Routing packet...". -/
theorem route_failover_constant (w : ResponseWriter) (r : Request) (g : Globals)
    (fs : List Request) :
    routeHandler w r g = some (g, ⟨some (w.status.getD 200), w.body ++ "Routing packet..."⟩) ∧
    failoverHandler w r g
      = some (g, ⟨some (w.status.getD 200), w.body ++ "Rerouting to next edge node"⟩) ∧
    routeHandler ResponseWriter.fresh r g = some (g, ⟨some 200, "Routing packet..."⟩) ∧
    failoverHandler ResponseWriter.fresh r g
      = some (g, ⟨some 200, "Rerouting to next edge node"⟩) ∧
    serve ((fs.map fun q => (Handler.failover, q)) ++ [(Handler.route, r)]) g
      = some (g, (fs.map fun _ => ⟨some 200, "Rerouting to next edge node"⟩)
          ++ [⟨some 200, "Routing packet..."⟩]) := by
  have hr : routeHandler ResponseWriter.fresh r g = some (g, ⟨some 200, "Routing packet..."⟩) := by
    rw [routeHandler_eq]; simp [ResponseWriter.Write, ResponseWriter.fresh]
  have hf : ResponseWriter.fresh.Write "Rerouting to next edge node"
      = ⟨some 200, "Rerouting to next edge node"⟩ := by
    simp [ResponseWriter.Write, ResponseWriter.fresh]
  refine ⟨rfl, rfl, hr, ?_, ?_⟩
  · rw [failoverHandler_eq, hf]
  · rw [serve_append _ _ g g _ (serve_failovers fs g)]
    simp [serve, Handler.call, hr, hf]

/-- C9. No eviction and a single-key write footprint: a handler other than
`cacheHandler` always returns, and `cacheHandler` returns when the mutex is
unlocked; whenever one of the four handlers returns, every key that had an
entry before the call has one after it, and every key other than "session"
maps to the same value as before. -/
theorem handlers_keep_entries (h : Handler) (w : ResponseWriter) (r : Request) (g : Globals) :
    ((h ≠ Handler.cache ∨ g.cacheMutex = RWMutex.zero) → (h.call w r g).isSome = true) ∧
    ∀ g' w', h.call w r g = some (g', w') →
      (∀ k, g.cache.get k ≠ none → g'.cache.get k ≠ none) ∧
      (∀ k, k ≠ "session" → g'.cache.get k = g.cache.get k) := by
  by_cases hh : h = Handler.cache
  · subst hh
    refine ⟨fun hm => ?_, fun g' w' hc => ?_⟩
    · rcases hm with hm | hm
      · exact absurd rfl hm
      · simp [Handler.call, cacheHandler_unlocked w r g hm]
    · simp only [Handler.call, cacheHandler_eq] at hc
      split at hc
      · simp only [Option.some.injEq, Prod.mk.injEq] at hc
        obtain ⟨rfl, -⟩ := hc
        refine ⟨fun k hk => ?_, fun k hk => StringMap.get_set_ne _ _ _ _ hk⟩
        by_cases hks : k = "session"
        · simp [hks, StringMap.get_set_self]
        · rwa [StringMap.get_set_ne _ _ _ _ hks]
      · simp at hc
  · obtain ⟨w₁, hw₁⟩ := call_eq_of_ne_cache h hh w r g
    refine ⟨fun _ => by simp [hw₁], fun g' w' hc => ?_⟩
    rw [hw₁] at hc
    simp only [Option.some.injEq, Prod.mk.injEq] at hc
    obtain ⟨rfl, -⟩ := hc
    exact ⟨fun k hk => hk, fun k _ => rfl⟩

/-- Witness of C9: `cacheHandler` at a cache that holds "session" and another
key. -/
theorem handlers_keep_entries_witness :
    (Handler.cache.call ResponseWriter.fresh ⟨"POST", "/cache", ""⟩
        ⟨⟨[("other", "x"), ("session", "old")]⟩, RWMutex.zero⟩).isSome = true ∧
    ∀ g' w', Handler.cache.call ResponseWriter.fresh ⟨"POST", "/cache", ""⟩
        ⟨⟨[("other", "x"), ("session", "old")]⟩, RWMutex.zero⟩ = some (g', w') →
      (∀ k, (StringMap.mk [("other", "x"), ("session", "old")]).get k ≠ none →
        g'.cache.get k ≠ none) ∧
      (∀ k, k ≠ "session" →
        g'.cache.get k = (StringMap.mk [("other", "x"), ("session", "old")]).get k) :=
  ⟨(handlers_keep_entries Handler.cache ResponseWriter.fresh ⟨"POST", "/cache", ""⟩
      ⟨⟨[("other", "x"), ("session", "old")]⟩, RWMutex.zero⟩).1 (Or.inr rfl),
   (handlers_keep_entries Handler.cache ResponseWriter.fresh ⟨"POST", "/cache", ""⟩
      ⟨⟨[("other", "x"), ("session", "old")]⟩, RWMutex.zero⟩).2⟩

/-! ## Lemmas on the goroutines -/

theorem suffix_body_cases (h : Handler) (pc : List Stmt) (hpc : pc <:+ h.body) :
    pc = [] ∨ pc = routeHandlerBody ∨ pc = failoverHandlerBody ∨ pc = metricsHandlerBody ∨
    pc = cacheHandlerBody ∨ pc = cacheHandlerBody.drop 1 ∨ pc = cacheHandlerBody.drop 2 ∨
    pc = cacheHandlerBody.drop 3 := by
  cases h <;>
    simp only [Handler.body, cacheHandlerBody, routeHandlerBody, failoverHandlerBody,
      metricsHandlerBody, List.suffix_cons_iff, List.suffix_nil] at hpc <;>
    simp only [cacheHandlerBody, routeHandlerBody, failoverHandlerBody, metricsHandlerBody,
      List.drop] <;>
    tauto

theorem inCritical_after_lock (h : Handler) (rest : List Stmt)
    (hpc : Stmt.lock :: rest <:+ h.body) : inCritical rest = true := by
  rcases suffix_body_cases h _ hpc with e | e | e | e | e | e | e | e <;>
    simp [cacheHandlerBody, routeHandlerBody, failoverHandlerBody, metricsHandlerBody] at e
  obtain rfl := e
  rfl

theorem inCritical_after_unlock (h : Handler) (rest : List Stmt)
    (hpc : Stmt.unlock :: rest <:+ h.body) : inCritical rest = false := by
  rcases suffix_body_cases h _ hpc with e | e | e | e | e | e | e | e <;>
    simp [cacheHandlerBody, routeHandlerBody, failoverHandlerBody, metricsHandlerBody] at e
  obtain rfl := e
  rfl

theorem after_lock (h : Handler) (rest : List Stmt) (hpc : Stmt.lock :: rest <:+ h.body) :
    ∃ s, rest = [Stmt.store "session" "data", Stmt.unlock, Stmt.write s] := by
  rcases suffix_body_cases h _ hpc with e | e | e | e | e | e | e | e <;>
    simp [cacheHandlerBody, routeHandlerBody, failoverHandlerBody, metricsHandlerBody] at e
  exact ⟨_, e⟩

theorem after_store (h : Handler) (k v : String) (rest : List Stmt)
    (hpc : Stmt.store k v :: rest <:+ h.body) :
    ∃ s, rest = [Stmt.unlock, Stmt.write s] := by
  rcases suffix_body_cases h _ hpc with e | e | e | e | e | e | e | e <;>
    simp [cacheHandlerBody, routeHandlerBody, failoverHandlerBody, metricsHandlerBody] at e
  exact ⟨_, e.2⟩

theorem after_write (h : Handler) (s : String) (rest : List Stmt)
    (hpc : Stmt.write s :: rest <:+ h.body) : rest = [] := by
  rcases suffix_body_cases h _ hpc with e | e | e | e | e | e | e | e <;>
    simp [cacheHandlerBody, routeHandlerBody, failoverHandlerBody, metricsHandlerBody] at e <;>
    exact e.2

theorem after_encode (h : Handler) (m : StringMap) (rest : List Stmt)
    (hpc : Stmt.encode m :: rest <:+ h.body) : rest = [] := by
  rcases suffix_body_cases h _ hpc with e | e | e | e | e | e | e | e <;>
    simp [cacheHandlerBody, routeHandlerBody, failoverHandlerBody, metricsHandlerBody] at e
  exact e.2

theorem Sys.inv_start (cache : StringMap) (calls : List (Handler × Request)) :
    Sys.Inv calls (Sys.start ⟨cache, RWMutex.zero⟩ calls) := by
  refine ⟨rfl, rfl, fun i p hp => ?_⟩
  simp only [Sys.start, List.getElem?_map, Option.map_eq_some'] at hp
  obtain ⟨cr, hcr, rfl⟩ := hp
  refine ⟨⟨cr, hcr, List.suffix_refl _⟩, ?_⟩
  obtain ⟨h, r⟩ := cr
  cases h <;> simp [Sys.start, Handler.body, cacheHandlerBody, routeHandlerBody,
    failoverHandlerBody, metricsHandlerBody, inCritical]

theorem Sys.step_cases (c : Sys) (i : Nat) :
    c.step i = c ∨
    ∃ s rest w g' w', c.procs[i]? = some ⟨s :: rest, w⟩ ∧ s.exec c.g w = some (g', w') ∧
      c.step i = ⟨g', c.procs.set i ⟨rest, w'⟩, s.holderAfter i c.holder⟩ := by
  unfold Sys.step
  split
  · rename_i s rest w hpi
    split
    · rename_i g' w' hex
      exact Or.inr ⟨s, rest, w, g', w', hpi, hex, rfl⟩
    · exact Or.inl rfl
  · exact Or.inl rfl

theorem Sys.inv_step (calls : List (Handler × Request)) (c : Sys) (i : Nat)
    (hc : Sys.Inv calls c) : Sys.Inv calls (c.step i) := by
  rcases Sys.step_cases c i with hstep | ⟨s, rest, w, g', w', hpi, hex, hstep⟩
  · rw [hstep]; exact hc
  · rw [hstep]
    obtain ⟨hr, hw, hprocs⟩ := hc
    obtain ⟨⟨cr, hcr, hsuf⟩, hcrit⟩ := hprocs i _ hpi
    have hrest : rest <:+ cr.1.body := (List.suffix_cons s rest).trans hsuf
    have hilt : i < c.procs.length := by
      by_contra hge
      rw [List.getElem?_eq_none (Nat.le_of_not_lt hge)] at hpi
      cases hpi
    -- what the other goroutines and goroutine `i` look like after the step
    have hget : ∀ j q, (c.procs.set i ⟨rest, w'⟩)[j]? = some q →
        (j = i ∧ q = ⟨rest, w'⟩) ∨ (j ≠ i ∧ c.procs[j]? = some q) := by
      intro j q hq
      by_cases hji : j = i
      · subst hji
        rw [List.getElem?_set_self hilt] at hq
        exact Or.inl ⟨rfl, (Option.some.inj hq).symm⟩
      · rw [List.getElem?_set_ne (Ne.symm hji)] at hq
        exact Or.inr ⟨hji, hq⟩
    cases s with
    | lock =>
      simp only [Stmt.exec, RWMutex.Lock] at hex
      split at hex
      · rename_i hfree
        simp only [Option.map_some', Option.some.injEq, Prod.mk.injEq] at hex
        obtain ⟨rfl, rfl⟩ := hex
        have hnone : c.holder = none := by
          have := hfree.1
          rw [hw] at this
          simpa using this
        refine ⟨hr, rfl, fun j q hq => ?_⟩
        rcases hget j q hq with ⟨rfl, rfl⟩ | ⟨hji, hq'⟩
        · exact ⟨⟨cr, hcr, hrest⟩, by simp [Stmt.holderAfter, inCritical_after_lock _ _ hsuf]⟩
        · obtain ⟨hb, hcj⟩ := hprocs j q hq'
          refine ⟨hb, ?_⟩
          rw [hcj, hnone]
          simp [Stmt.holderAfter, Ne.symm hji]
      · simp at hex
    | unlock =>
      simp only [Stmt.exec, RWMutex.Unlock] at hex
      split at hex
      · simp only [Option.map_some', Option.some.injEq, Prod.mk.injEq] at hex
        obtain ⟨rfl, rfl⟩ := hex
        have hme : c.holder = some i := hcrit.1 rfl
        refine ⟨hr, rfl, fun j q hq => ?_⟩
        rcases hget j q hq with ⟨rfl, rfl⟩ | ⟨hji, hq'⟩
        · exact ⟨⟨cr, hcr, hrest⟩,
            by simp [Stmt.holderAfter, inCritical_after_unlock _ _ hsuf]⟩
        · obtain ⟨hb, hcj⟩ := hprocs j q hq'
          refine ⟨hb, ?_⟩
          rw [hcj, hme]
          simp [Stmt.holderAfter, Ne.symm hji]
      · simp at hex
    | store k v =>
      simp only [Stmt.exec, Option.some.injEq, Prod.mk.injEq] at hex
      obtain ⟨rfl, rfl⟩ := hex
      refine ⟨hr, hw, fun j q hq => ?_⟩
      rcases hget j q hq with ⟨rfl, rfl⟩ | ⟨hji, hq'⟩
      · exact ⟨⟨cr, hcr, hrest⟩, hcrit⟩
      · exact hprocs j q hq'
    | write t =>
      simp only [Stmt.exec, Option.some.injEq, Prod.mk.injEq] at hex
      obtain ⟨rfl, rfl⟩ := hex
      refine ⟨hr, hw, fun j q hq => ?_⟩
      rcases hget j q hq with ⟨rfl, rfl⟩ | ⟨hji, hq'⟩
      · exact ⟨⟨cr, hcr, hrest⟩, hcrit⟩
      · exact hprocs j q hq'
    | encode m =>
      simp only [Stmt.exec, Option.some.injEq, Prod.mk.injEq] at hex
      obtain ⟨rfl, rfl⟩ := hex
      refine ⟨hr, hw, fun j q hq => ?_⟩
      rcases hget j q hq with ⟨rfl, rfl⟩ | ⟨hji, hq'⟩
      · exact ⟨⟨cr, hcr, hrest⟩, hcrit⟩
      · exact hprocs j q hq'

theorem Sys.inv_run (calls : List (Handler × Request)) (sched : List Nat) (c : Sys)
    (hc : Sys.Inv calls c) : Sys.Inv calls (c.run sched) := by
  induction sched generalizing c with
  | nil => exact hc
  | cons i rest ih => exact ih (c.step i) (Sys.inv_step calls c i hc)

theorem mem_body_not_cache (h : Handler) (hh : h ≠ Handler.cache) (s : Stmt) (hs : s ∈ h.body) :
    s ≠ Stmt.lock ∧ s ≠ Stmt.unlock ∧ ∀ k v, s ≠ Stmt.store k v := by
  cases h with
  | cache => exact absurd rfl hh
  | route =>
      simp only [Handler.body, routeHandlerBody, List.mem_singleton] at hs
      subst hs
      simp
  | failover =>
      simp only [Handler.body, failoverHandlerBody, List.mem_singleton] at hs
      subst hs
      simp
  | metrics =>
      simp only [Handler.body, metricsHandlerBody, List.mem_singleton] at hs
      subst hs
      simp

/-- C10. Exclusive-write locking discipline.  Any number of calls of the four
handlers run as goroutines from any cache with the mutex unlocked, under any
schedule.  At every point reached, for goroutine `i`, started as handler `h`:
when its next statement writes the map, it runs `cacheHandler`, the exclusive
side of the mutex is held and it is the holder, and what follows the write is
the `Unlock`, then the response write, then the return; when its next
statement is the `Lock`, what follows is the map write; when its next
statement writes the response, or it has returned, it is not the holder; and
when `h` is another handler than `cacheHandler`, no statement it has left is a
`Lock`, an `Unlock` or a map write. -/
theorem cacheHandler_lock_discipline (cache : StringMap) (calls : List (Handler × Request))
    (sched : List Nat) (i : Nat) (h : Handler) (r : Request) (p : Goroutine)
    (hcall : calls[i]? = some (h, r))
    (hp : ((Sys.start ⟨cache, RWMutex.zero⟩ calls).run sched).procs[i]? = some p) :
    (∀ k v rest, p.pc = Stmt.store k v :: rest →
      h = Handler.cache ∧
      ((Sys.start ⟨cache, RWMutex.zero⟩ calls).run sched).g.cacheMutex.writer = true ∧
      ((Sys.start ⟨cache, RWMutex.zero⟩ calls).run sched).holder = some i ∧
      ∃ s, rest = [Stmt.unlock, Stmt.write s]) ∧
    (∀ rest, p.pc = Stmt.lock :: rest →
      ∃ s, rest = [Stmt.store "session" "data", Stmt.unlock, Stmt.write s]) ∧
    (∀ s rest, p.pc = Stmt.write s :: rest →
      ((Sys.start ⟨cache, RWMutex.zero⟩ calls).run sched).holder ≠ some i ∧ rest = []) ∧
    (∀ m rest, p.pc = Stmt.encode m :: rest →
      ((Sys.start ⟨cache, RWMutex.zero⟩ calls).run sched).holder ≠ some i ∧ rest = []) ∧
    (p.pc = [] → ((Sys.start ⟨cache, RWMutex.zero⟩ calls).run sched).holder ≠ some i) ∧
    (h ≠ Handler.cache →
      ∀ s ∈ p.pc, s ≠ Stmt.lock ∧ s ≠ Stmt.unlock ∧ ∀ k v, s ≠ Stmt.store k v) := by
  obtain ⟨-, hw, hprocs⟩ :=
    Sys.inv_run calls sched _ (Sys.inv_start cache calls)
  obtain ⟨⟨cr, hcr, hsuf⟩, hcrit⟩ := hprocs i p hp
  rw [hcall] at hcr
  obtain rfl := Option.some.inj hcr
  simp only at hsuf
  refine ⟨fun k v rest hpc => ?_, fun rest hpc => ?_, fun s rest hpc => ?_,
    fun m rest hpc => ?_, fun hpc => ?_, fun hh s hs => ?_⟩
  · rw [hpc] at hsuf hcrit
    obtain ⟨s, rfl⟩ := after_store h k v rest hsuf
    have hhold := hcrit.1 rfl
    refine ⟨?_, ?_, hhold, s, rfl⟩
    · by_contra hh
      exact (mem_body_not_cache h hh _ (hsuf.subset (List.mem_cons_self _ _))).2.2 k v rfl
    · rw [hw, hhold]; rfl
  · rw [hpc] at hsuf
    exact after_lock h rest hsuf
  · rw [hpc] at hsuf hcrit
    obtain rfl := after_write h s rest hsuf
    refine ⟨fun hhold => ?_, rfl⟩
    have := hcrit.2 hhold
    simp [inCritical] at this
  · rw [hpc] at hsuf hcrit
    obtain rfl := after_encode h m rest hsuf
    refine ⟨fun hhold => ?_, rfl⟩
    have := hcrit.2 hhold
    simp [inCritical] at this
  · rw [hpc] at hcrit
    intro hhold
    have := hcrit.2 hhold
    simp [inCritical] at this
  · exact mem_body_not_cache h hh s (hsuf.subset hs)

/-- Witness of C10: two calls of `cacheHandler` and one of `metricsHandler`;
the first has taken the lock, the second has tried to, the third has written
its response.  The first is about to write the map and holds the lock. -/
theorem cacheHandler_lock_discipline_witness :
    ((Sys.start ⟨⟨[]⟩, RWMutex.zero⟩
        [(Handler.cache, ⟨"POST", "/cache", ""⟩), (Handler.cache, ⟨"POST", "/cache", ""⟩),
         (Handler.metrics, ⟨"GET", "/metrics/edge", ""⟩)]).run [0, 1, 2]).procs[0]?
      = some ⟨[Stmt.store "session" "data", Stmt.unlock, Stmt.write "Cached session data"],
          ResponseWriter.fresh⟩ ∧
    ((Sys.start ⟨⟨[]⟩, RWMutex.zero⟩
        [(Handler.cache, ⟨"POST", "/cache", ""⟩), (Handler.cache, ⟨"POST", "/cache", ""⟩),
         (Handler.metrics, ⟨"GET", "/metrics/edge", ""⟩)]).run [0, 1, 2]).g.cacheMutex.writer
      = true ∧
    ((Sys.start ⟨⟨[]⟩, RWMutex.zero⟩
        [(Handler.cache, ⟨"POST", "/cache", ""⟩), (Handler.cache, ⟨"POST", "/cache", ""⟩),
         (Handler.metrics, ⟨"GET", "/metrics/edge", ""⟩)]).run [0, 1, 2]).holder = some 0 :=
  ⟨rfl,
   ((cacheHandler_lock_discipline ⟨[]⟩
      [(Handler.cache, ⟨"POST", "/cache", ""⟩), (Handler.cache, ⟨"POST", "/cache", ""⟩),
       (Handler.metrics, ⟨"GET", "/metrics/edge", ""⟩)] [0, 1, 2] 0 Handler.cache
      ⟨"POST", "/cache", ""⟩ _ rfl rfl).1 _ _ _ rfl).2.1,
   ((cacheHandler_lock_discipline ⟨[]⟩
      [(Handler.cache, ⟨"POST", "/cache", ""⟩), (Handler.cache, ⟨"POST", "/cache", ""⟩),
       (Handler.metrics, ⟨"GET", "/metrics/edge", ""⟩)] [0, 1, 2] 0 Handler.cache
      ⟨"POST", "/cache", ""⟩ _ rfl rfl).1 _ _ _ rfl).2.2.1⟩

end MeshAgent
